import Mathlib

/-!
Verification of the fear/greed scoring pipeline in `main.py`.

The script fetches five daily data frames (index prices, index futures,
valuation ratios, bond yields, margin balances), computes six percentile
sub-scores for each evaluation date, combines them with fitted weights,
applies a bias correction, and persists a small CSV ledger.

The embedding below models pandas cells as `Option ℚ` (`none` is NaN),
data frames as lists of typed rows (row order is frame order, dates are
unique per the data contract), and `float` arithmetic as exact rational
arithmetic.  Python's `round(x, 2)` (round half to even) is modelled
exactly by `round2`.
-/

/-- A pandas cell: `none` models NaN. -/
abbrev Val := Option ℚ

/-- Round to the nearest integer, ties to the even integer
(Python's `round` on floats, banker's rounding). -/
def roundHalfEven (q : ℚ) : ℤ :=
  let n : ℤ := ⌊q⌋
  let f : ℚ := q - n
  if f < 1/2 then n
  else if 1/2 < f then n + 1
  else if Even n then n else n + 1

/-- Python's `round(x, 2)`. -/
def round2 (q : ℚ) : ℚ := (roundHalfEven (q * 100) : ℚ) / 100

theorem roundHalfEven_abs_le (q : ℚ) : |(roundHalfEven q : ℚ) - q| ≤ 1/2 := by
  unfold roundHalfEven
  have h0 : (⌊q⌋ : ℚ) ≤ q := Int.floor_le q
  have h1 : q < (⌊q⌋ : ℚ) + 1 := Int.lt_floor_add_one q
  by_cases hlt : q - (⌊q⌋ : ℚ) < 1/2
  · simp only [hlt, if_true]
    rw [abs_le]; constructor <;> linarith
  · by_cases hgt : 1/2 < q - (⌊q⌋ : ℚ)
    · simp only [hlt, hgt, if_false, if_true]
      push_cast
      rw [abs_le]; constructor <;> linarith
    · have heq : q - (⌊q⌋ : ℚ) = 1/2 := le_antisymm (not_lt.mp hgt) (not_lt.mp hlt)
      by_cases hev : Even ⌊q⌋
      · simp only [hlt, hgt, hev, if_false, if_true]
        rw [abs_le]; constructor <;> linarith
      · simp only [hlt, hgt, hev, if_false, if_true]
        push_cast
        rw [abs_le]; constructor <;> linarith

theorem round2_bounds (q lo hi : ℚ) (hlo : lo ≤ q) (hhi : q ≤ hi)
    (hlo' : ∃ n : ℤ, lo = n) (hhi' : ∃ n : ℤ, hi = n) :
    lo ≤ round2 q ∧ round2 q ≤ hi := by
  obtain ⟨a, rfl⟩ := hlo'
  obtain ⟨b, rfl⟩ := hhi'
  have h := roundHalfEven_abs_le (q * 100)
  rw [abs_le] at h
  have h2 : (a : ℚ) * 100 - 1/2 ≤ (roundHalfEven (q * 100) : ℚ) := by
    have : (a : ℚ) * 100 ≤ q * 100 := by nlinarith
    linarith [h.1]
  have h3 : (roundHalfEven (q * 100) : ℚ) ≤ (b : ℚ) * 100 + 1/2 := by
    have : q * 100 ≤ (b : ℚ) * 100 := by nlinarith
    linarith [h.2]
  have h4 : (a : ℤ) * 100 ≤ roundHalfEven (q * 100) := by
    have := h2
    have hcast : ((a * 100 : ℤ) : ℚ) - 1/2 ≤ ((roundHalfEven (q * 100) : ℤ) : ℚ) := by
      push_cast; linarith
    have : ((a * 100 : ℤ) : ℚ) < ((roundHalfEven (q * 100) : ℤ) : ℚ) + 1 := by linarith
    exact_mod_cast Int.lt_add_one_iff.mp (by exact_mod_cast this)
  have h5 : roundHalfEven (q * 100) ≤ (b : ℤ) * 100 := by
    have hcast : ((roundHalfEven (q * 100) : ℤ) : ℚ) < ((b * 100 : ℤ) : ℚ) + 1 := by
      push_cast; linarith
    exact Int.lt_add_one_iff.mp (by exact_mod_cast hcast)
  constructor
  · unfold round2
    rw [le_div_iff (by norm_num : (0:ℚ) < 100)]
    exact_mod_cast h4
  · unfold round2
    rw [div_le_iff (by norm_num : (0:ℚ) < 100)]
    exact_mod_cast h5

/-!
## Data frames

`main.py` consumes five frames.  Each is modelled as a list of typed rows;
dates are integer day numbers.  The script's column discovery
(`pe_col`, `rate_col`, `margin_col` at lines 134-137 and 158) is modelled by
giving each row type the discovered column directly; values that
`pd.to_numeric(..., errors='coerce')` may turn into NaN are `Val`.
-/

/-- A row of `df_p` (daily bars of the spot index, line 62). -/
structure PriceRow where
  date : ℤ
  close : ℚ
  volume : ℚ
deriving DecidableEq, Repr

/-- A row of `df_fut` (daily bars of the index future, line 67). -/
structure FutRow where
  date : ℤ
  close : ℚ
deriving DecidableEq, Repr

/-- A row of `df_val` (valuation series, line 74): the discovered P/E column. -/
structure ValRow where
  date : ℤ
  pe : Val
deriving DecidableEq, Repr

/-- A row of `df_bond` (yield series, line 77): the discovered 10-year column. -/
structure BondRow where
  date : ℤ
  rate : Val
deriving DecidableEq, Repr

/-- A row of `df_margin` (margin-balance series, line 82). -/
structure MarginRow where
  date : ℤ
  marginBalance : Val
deriving DecidableEq, Repr

/-!
## Series operations (pandas primitives used by the script)

Division by zero in pandas produces `inf` (nonzero numerator) or NaN (zero
numerator); neither raises.  Both outcomes are degenerate non-numbers and are
modelled as `none` here; divisions below are always by a price, a rolling
mean of volumes, a P/E, or a rolling max of prices, where zero denominators
lie outside the data contract.
-/

/-- `pd.to_numeric(series, errors='coerce').dropna()` (line 97): the numeric
values of the series with NaN cells removed. -/
def dropna (s : List Val) : List ℚ := s.filterMap id

/-- `Series.tail(n)`: the last `n` elements. -/
def tail_n (n : ℕ) (s : List ℚ) : List ℚ := s.drop (s.length - n)

/-- `scipy.stats.percentileofscore(s, x, kind='weak')` (line 103): 100 times
the fraction of values in `s` that are ≤ `x`. -/
def percentileofscore_weak (s : List ℚ) (x : ℚ) : ℚ :=
  100 * (((s.filter (fun v => v ≤ x)).length : ℚ) / (s.length : ℚ))

/-- The scorer `get_score(series, current_val, invert)` of lines 95-104:
clean the series, return 50 when fewer than 10 observations remain or the
current value is NaN, otherwise rank the current value in the trailing
750-observation window by the weak percentile convention, inverting to
`100 - p` when `invert` is set. -/
def get_score (series : List Val) (current_val : Val) (invert : Bool) : ℚ :=
  let s := dropna series
  match current_val with
  | none => 50
  | some c =>
    if s.length < 10 then 50
    else
      let s_window := tail_n 750 s
      let p := percentileofscore_weak s_window c
      if invert then 100 - p else p

/-- `Series.pct_change()`: NaN first, then `cur/prev - 1`; a zero previous
value yields a non-number (see the note above). -/
def pct_change (xs : List ℚ) : List Val :=
  match xs with
  | [] => []
  | _ :: _ =>
    none :: ((xs.zip xs.tail).map (fun pc =>
      if pc.1 = 0 then none else some (pc.2 / pc.1 - 1)))

/-- All cells of a window, provided none is NaN. -/
def allSome (l : List Val) : Option (List ℚ) :=
  if l.all Option.isSome then some (l.filterMap id) else none

/-- `Series.rolling(w).agg(f)` with the default `min_periods = w`: position
`i` holds `f` of the window ending at `i` when the window is full and free
of NaN, and NaN otherwise. -/
def rollingApply (w : ℕ) (f : List ℚ → ℚ) (xs : List Val) : List Val :=
  (List.range xs.length).map (fun i =>
    if i + 1 < w then none
    else
      match allSome ((xs.take (i + 1)).drop (i + 1 - w)) with
      | none => none
      | some vs => some (f vs))

/-- Mean of a list of rationals (`Series.mean`). -/
def lmean (l : List ℚ) : ℚ := l.sum / (l.length : ℚ)

/-- Sample variance with `ddof = 1`, i.e. the square of `Series.std()`.
The scorer only compares statistics of the same series, and squaring
preserves those comparisons (`percentileofscore_weak_map_sq` below), so
ranking variances is exactly ranking standard deviations. -/
def sampleVarNum (l : List ℚ) : ℚ :=
  (l.map (fun x => (x - lmean l) ^ 2)).sum / ((l.length : ℚ) - 1)

/-- Maximum of a window (`Series.rolling(w).max()`; windows are nonempty). -/
def lmax (l : List ℚ) : ℚ :=
  match l with
  | [] => 0
  | x :: xs => xs.foldl max x

/-- Elementwise division of a number by a possibly-NaN denominator. -/
def safeDiv (a : ℚ) (m : Val) : Val :=
  match m with
  | none => none
  | some d => if d = 0 then none else some (a / d)

/-- `Series.iloc[-1]`: the last cell.  Every use in the script is guarded so
the series is nonempty; on `[]` the model returns NaN where the script
would raise into the factor engine's blanket handler. -/
def lastVal (l : List Val) : Val := (l.getLast?).getD none

/-- `pd.merge(cut_p[['date','close']], cut_f[['date','close']], on='date')`
(line 125): inner join on date, left-frame order, yielding
(spot close, futures close) pairs. -/
def innerJoin (ps : List PriceRow) (fs : List FutRow) : List (ℚ × ℚ) :=
  ps.flatMap (fun p =>
    (fs.filter (fun f => f.date = p.date)).map (fun f => (p.close, f.close)))

/-!
## The six factors of `calculate_factors` (lines 87-167)

The Python locals `f1 .. f6` become one definition each; `cut_p` is passed
already sliced, the other frames are sliced inside exactly as in the code.
-/

/-- Factor 1 (lines 106-108): 20-day rolling std of daily returns, inverted.
`rollingApply 20 sampleVarNum` is the squared statistic series; see
`sampleVarNum`. -/
def factor1 (cut_p : List PriceRow) : ℚ :=
  let vol := rollingApply 20 sampleVarNum (pct_change (cut_p.map (·.close)))
  get_score vol (lastVal vol) true

/-- Factor 2 (lines 110-112): volume over its 20-day rolling mean. -/
def factor2 (cut_p : List PriceRow) : ℚ :=
  let volumes := cut_p.map (·.volume)
  let volMean := rollingApply 20 lmean (volumes.map some)
  let vol_ratio := List.zipWith safeDiv volumes volMean
  get_score vol_ratio (lastVal vol_ratio) false

/-- Factor 3 (lines 114-117): close over its 250-day rolling max. -/
def factor3 (cut_p : List PriceRow) : ℚ :=
  let closes := cut_p.map (·.close)
  let high_250 := rollingApply 250 lmax (closes.map some)
  let strength := List.zipWith safeDiv closes high_250
  get_score strength (lastVal strength) false

/-- Factor 4 (lines 119-128): futures basis rate over the date-joined spot
and futures closes; 50 when the futures frame, or the join, is empty. -/
def factor4 (target_date : ℤ) (cut_p : List PriceRow)
    (df_fut : List FutRow) : ℚ :=
  if df_fut.isEmpty then 50
  else
    let cut_f := df_fut.filter (fun r => r.date ≤ target_date)
    let merged := innerJoin cut_p cut_f
    if merged.isEmpty then 50
    else
      let basis := merged.map (fun pr =>
        if pr.1 = 0 then none else some ((pr.2 - pr.1) / pr.1))
      get_score basis (lastVal basis) false

/-- Factor 5 (lines 130-149): equity risk premium `1/PE - rate/100` over the
date-joined valuation and yield frames; the left join plus `dropna`
(line 145) keeps exactly the dates carrying both a numeric P/E and a
numeric rate. -/
def factor5 (target_date : ℤ) (df_val : List ValRow)
    (df_bond : List BondRow) : ℚ :=
  let cut_v := df_val.filter (fun r => r.date ≤ target_date)
  let cut_b := df_bond.filter (fun r => r.date ≤ target_date)
  let erp_rows : List (ℚ × ℚ) := cut_v.flatMap (fun v =>
    match v.pe with
    | none => []
    | some pe =>
      (cut_b.filter (fun b => b.date = v.date)).filterMap (fun b =>
        b.rate.map (fun r => (pe, r))))
  if erp_rows.isEmpty then 50
  else
    let erp_series := erp_rows.map (fun pr =>
      if pr.1 = 0 then none else some (1 / pr.1 - pr.2 / 100))
    get_score erp_series (lastVal erp_series) false

/-- Factor 6 (lines 151-162): margin balance level; 50 when the margin frame
or its slice is empty. -/
def factor6 (target_date : ℤ) (df_margin : List MarginRow) : ℚ :=
  if df_margin.isEmpty then 50
  else
    let cut_m := df_margin.filter (fun r => r.date ≤ target_date)
    if cut_m.isEmpty then 50
    else
      let m_val := cut_m.map (·.marginBalance)
      get_score m_val (lastVal m_val) false

/-- The factor engine `calculate_factors` (lines 87-167): slice every frame
to dates at or before `target_date`, return six neutral 50s when fewer than
30 price rows remain, otherwise the six sub-scores rounded to 2 decimals.
The `try/except` of lines 88 and 165-167 maps a raised exception to six 50s;
in this model every operation is total, so no modelled path raises. -/
def calculate_factors (target_date : ℤ)
    (df_p : List PriceRow) (df_fut : List FutRow) (df_val : List ValRow)
    (df_bond : List BondRow) (df_margin : List MarginRow) : List ℚ :=
  let cut_p := df_p.filter (fun r => r.date ≤ target_date)
  if cut_p.length < 30 then List.replicate 6 50
  else
    [round2 (factor1 cut_p), round2 (factor2 cut_p), round2 (factor3 cut_p),
     round2 (factor4 target_date cut_p df_fut),
     round2 (factor5 target_date df_val df_bond),
     round2 (factor6 target_date df_margin)]

/-!
## Fetch prelude of `main` (lines 42-84)

`fetch_data_with_retry` returns the provider's frame, or an empty
`pd.DataFrame()` — a frame with no columns — after three failed attempts.
A fetch outcome is modelled as `Option (List row)`: `none` is the empty
no-column frame.  Reading a column of that frame
(`df['date']`, `df['日期']`) raises `KeyError`; `Except` carries that.
The futures and margin frames are only touched behind `if not df.empty`
guards (lines 68 and 83), so their empty outcome flows on as an empty list.
-/

/-- Outcome of one `fetch_data_with_retry` call: `none` models the empty
frame returned when all three attempts raised (lines 42-48). -/
abbrev Fetched (ρ : Type) := Option (List ρ)

/-- The date-normalisation lines 62-63 and 74-78: converting the date column
of a fetched frame raises `KeyError` on the no-column empty frame. -/
def requireFrame {ρ : Type} (fetched : Fetched ρ) : Except Unit (List ρ) :=
  match fetched with
  | none => Except.error ()
  | some rows => Except.ok rows

/-- The guarded frames (lines 68-71 and 83-84): an empty fetch outcome is
kept as an empty frame and only warned about. -/
def guardedFrame {ρ : Type} (fetched : Fetched ρ) : List ρ :=
  match fetched with
  | none => []
  | some rows => rows

/-- The five frames after the prelude, in the order `main` prepares them. -/
structure Frames where
  p : List PriceRow
  fut : List FutRow
  val : List ValRow
  bond : List BondRow
  margin : List MarginRow
deriving DecidableEq, Repr

/-- The data-preparation prelude of `main` (lines 61-84): the price,
valuation, and bond frames have their date columns converted
unconditionally and so abort on an empty fetch outcome; the futures and
margin frames are guarded. -/
def mainPrelude (fp : Fetched PriceRow) (ff : Fetched FutRow)
    (fv : Fetched ValRow) (fb : Fetched BondRow) (fm : Fetched MarginRow) :
    Except Unit Frames := do
  let p ← requireFrame fp
  let fut := guardedFrame ff
  let val ← requireFrame fv
  let bond ← requireFrame fb
  let margin := guardedFrame fm
  Except.ok ⟨p, fut, val, bond, margin⟩

/-!
## Weight fitting (lines 189-198)

`weights` starts uniform; when at least 5 closed rows are available the
script runs `scipy.optimize.minimize` with box bounds `[0.05, 0.4]` and the
equality constraint `sum(w) = 1`, and adopts `res.x` only when
`res.success`.  The solver is external code; it is modelled as an oracle
value `res : Option (Fin 6 → ℚ)` where `some w` stands for a successful
run returning `w`, and the solver's contract — a successful result
satisfies the bounds and, within tolerance, the constraint — is a
hypothesis of the theorem that uses it. -/

/-- The uniform fallback `np.array([1/6] * 6)` (line 189). -/
def uniformWeights : Fin 6 → ℚ := fun _ => 1 / 6

/-- A weight vector within the box bounds of line 196 whose components sum
to 1 up to `eps`. -/
def WeightsFeasible (eps : ℚ) (w : Fin 6 → ℚ) : Prop :=
  (∀ i, 1/20 ≤ w i ∧ w i ≤ 2/5) ∧ |(∑ i, w i) - 1| ≤ eps

/-- Weight selection of lines 189-198: the solver result when at least five
closed rows exist and the solver succeeded, the uniform vector otherwise. -/
def selectWeights (nFit : ℕ) (res : Option (Fin 6 → ℚ)) : Fin 6 → ℚ :=
  if 5 ≤ nFit then
    match res with
    | some w => w
    | none => uniformWeights
  else uniformWeights

/-!
## Today's prediction (lines 200-212)

`today_raw` is the rounded weighted sum of today's sub-scores; `bias_fix`
is an exponentially weighted mean of recent observed biases (0 when no
closed row exists, lines 205-210) and is unbounded because the ground-truth
files hold arbitrary floats; `final_predict = round(today_raw + bias_fix, 2)`
with no clamping. -/

/-- `today_raw` (line 202): rounded weighted sum of sub-scores. -/
def todayRaw (fs : List ℚ) (ws : List ℚ) : ℚ :=
  round2 (List.zipWith (fun f w => f * w) fs ws).sum

/-- `final_predict` (line 212). -/
def finalPredict (today_raw bias_fix : ℚ) : ℚ := round2 (today_raw + bias_fix)

/-!
## The ledger (lines 53-56 and 169-221)

Rows mirror the CSV columns `date, f1..f6, predict, actual, bias`.  The
run deletes any existing ledger file first (lines 53-56) and rebuilds
`df_log` from an empty frame, so the produced ledger is a function of
today's date and the fetched data alone; the prior file content is a
parameter the run never reads. -/

/-- One ledger row. -/
structure LedgerRow where
  date : ℤ
  fs : List ℚ
  predict : ℚ
  actual : Option ℚ
  bias : Option ℚ
deriving DecidableEq, Repr

/-- `is_workday` (lines 19-20): Monday to Friday.  Day numbers are chosen
with day 0 a Monday, so `weekday = date mod 7`. -/
def isWorkday (d : ℤ) : Bool := d.emod 7 < 5

/-- The backfill loop of lines 174-186: for `i = 14 .. 1`, score the
workday `today - i`, predict with the uniform mean (line 181), attach the
ground truth and bias when the ground-truth source has a value. -/
def backfillRows (today : ℤ) (facs : ℤ → List ℚ) (act : ℤ → Option ℚ) :
    List LedgerRow :=
  ((List.range 14).map (fun k => 14 - k)).filterMap (fun i : ℕ =>
    let d := today - (i : ℤ)
    if isWorkday d then
      let fs := facs d
      let p_raw := round2 (fs.sum / 6)
      let a := act d
      some ⟨d, fs, p_raw, a, a.map (fun v => round2 (v - p_raw))⟩
    else none)

/-- Today's appended row (line 218): open, with the weighted prediction. -/
def todayRow (today : ℤ) (fs : List ℚ) (ws : List ℚ) : LedgerRow :=
  ⟨today, fs, todayRaw fs ws, none, none⟩

/-- Lines 215-221: drop any row already carrying today's date, append
today's row, and sort by date (the CSV sorts the `%Y-%m-%d` strings, whose
lexicographic order is the chronological order modelled here). -/
def finalLedger (today : ℤ) (facs : ℤ → List ℚ) (act : ℤ → Option ℚ)
    (ws : List ℚ) : List LedgerRow :=
  let df_log := backfillRows today facs act
  let df_log2 := (df_log.filter (fun r => r.date ≠ today)) ++
    [todayRow today (facs today) ws]
  df_log2.mergeSort (fun a b => a.date ≤ b.date)

/-- The whole ledger side of a run, lines 53-56 plus 169-221: the prior
file content is deleted before anything reads it, so it is an unused
argument. -/
def runLedger (_prior : Option (List LedgerRow)) (today : ℤ)
    (facs : ℤ → List ℚ) (act : ℤ → Option ℚ) (ws : List ℚ) :
    List LedgerRow :=
  finalLedger today facs act ws

/-!
## Helper lemmas
-/

/-- Slicing an already sliced frame changes nothing. -/
theorem filter_idem {α : Type} (p : α → Bool) (l : List α) :
    (l.filter p).filter p = l.filter p := by
  rw [List.filter_filter]
  simp [Bool.and_self]

theorem innerJoin_nil (cp : List PriceRow) : innerJoin cp [] = [] := by
  unfold innerJoin
  induction cp with
  | nil => rfl
  | cons h t ih => simp only [List.flatMap_cons, List.filter_nil, List.map_nil, List.nil_append]; exact ih

/-- A series of plain numbers survives cleaning unchanged. -/
theorem dropna_map_some (l : List ℚ) : dropna (l.map some) = l := by
  induction l with
  | nil => rfl
  | cons x t ih => simp only [List.map_cons, dropna, List.filterMap_cons, id_eq] at *; rw [ih]

/-- Filtering a constant list by a failing predicate gives the empty list. -/
theorem filter_replicate_false {α : Type} (n : ℕ) (a : α) (p : α → Bool)
    (h : p a = false) : (List.replicate n a).filter p = [] := by
  induction n with
  | zero => rfl
  | succ k ih => simp only [List.replicate_succ, List.filter_cons, h, Bool.false_eq_true,
      if_false, ih]

/-- Squaring nonnegative values preserves weak percentile ranks: ranking the
20-day variances (`sampleVarNum`) is ranking the 20-day standard deviations. -/
theorem percentileofscore_weak_map_sq (l : List ℚ) (c : ℚ)
    (hl : ∀ x ∈ l, 0 ≤ x) (hc : 0 ≤ c) :
    percentileofscore_weak (l.map (fun x => x ^ 2)) (c ^ 2)
      = percentileofscore_weak l c := by
  unfold percentileofscore_weak
  have hlen : (l.map (fun x => x ^ 2)).length = l.length := List.length_map _ _
  have hcnt : ((l.map (fun x => x ^ 2)).filter (fun v => v ≤ c ^ 2)).length
      = (l.filter (fun v => v ≤ c)).length := by
    induction l with
    | nil => rfl
    | cons x t ih =>
      have hx : 0 ≤ x := hl x (List.mem_cons_self x t)
      have ht : ∀ y ∈ t, 0 ≤ y := fun y hy => hl y (List.mem_cons_of_mem x hy)
      have hiff : (x ^ 2 ≤ c ^ 2) ↔ (x ≤ c) := by
        constructor
        · intro h
          nlinarith
        · intro h
          nlinarith
      simp only [List.map_cons, List.filter_cons]
      by_cases hxc : x ≤ c
      · have : x ^ 2 ≤ c ^ 2 := hiff.mpr hxc
        simp [hxc, this, ih ht]
      · have : ¬ x ^ 2 ≤ c ^ 2 := fun h => hxc (hiff.mp h)
        simp [hxc, this, ih ht]
  rw [hlen, hcnt]

theorem factor4_trunc (D : ℤ) (cp : List PriceRow) (fut : List FutRow) :
    factor4 D cp (fut.filter (fun r => r.date ≤ D)) = factor4 D cp fut := by
  by_cases h : fut.filter (fun r => r.date ≤ D) = []
  · simp only [factor4, h, innerJoin_nil, List.isEmpty_nil, if_true]
    by_cases hf : fut.isEmpty
    · simp [hf]
    · simp only [hf, if_false, h, innerJoin_nil, List.isEmpty_nil, if_true]
      simp
  · have h1 : (fut.filter (fun r => r.date ≤ D)).isEmpty = false :=
      List.isEmpty_eq_false.mpr h
    have h2 : fut.isEmpty = false := by
      rw [List.isEmpty_eq_false]
      intro hc
      exact h (by rw [hc]; rfl)
    simp only [factor4, h1, h2, Bool.false_eq_true, if_false, filter_idem]

theorem factor5_trunc (D : ℤ) (v : List ValRow) (b : List BondRow) :
    factor5 D (v.filter (fun r => r.date ≤ D)) (b.filter (fun r => r.date ≤ D))
      = factor5 D v b := by
  unfold factor5
  rw [filter_idem, filter_idem]

theorem factor6_trunc (D : ℤ) (m : List MarginRow) :
    factor6 D (m.filter (fun r => r.date ≤ D)) = factor6 D m := by
  by_cases h : m.filter (fun r => r.date ≤ D) = []
  · simp only [factor6, h, List.isEmpty_nil, if_true]
    by_cases hm : m.isEmpty
    · simp [hm]
    · simp only [hm, if_false, h, List.isEmpty_nil, if_true]
      simp
  · have h1 : (m.filter (fun r => r.date ≤ D)).isEmpty = false :=
      List.isEmpty_eq_false.mpr h
    have h2 : m.isEmpty = false := by
      rw [List.isEmpty_eq_false]
      intro hc
      exact h (by rw [hc]; rfl)
    simp only [factor6, h1, h2, Bool.false_eq_true, if_false, filter_idem]

/-- C1.  No look-ahead: for every evaluation date `D` and every factor, the
sub-scores computed for `D` are identical whether the input frames are
truncated to dates at or before `D` or extend past `D`; rows dated after
`D` never affect the result. -/
theorem calculate_factors_no_lookahead (D : ℤ) (p : List PriceRow)
    (fut : List FutRow) (v : List ValRow) (b : List BondRow)
    (m : List MarginRow) :
    calculate_factors D
      (p.filter (fun r => r.date ≤ D)) (fut.filter (fun r => r.date ≤ D))
      (v.filter (fun r => r.date ≤ D)) (b.filter (fun r => r.date ≤ D))
      (m.filter (fun r => r.date ≤ D))
      = calculate_factors D p fut v b m := by
  simp only [calculate_factors, filter_idem, factor4_trunc, factor5_trunc,
    factor6_trunc]

/-- C2.  Neutral default: when fewer than 30 price observations survive the
truncation the whole factor vector is six 50s; the scorer returns exactly
50 when fewer than 10 cleaned statistic observations remain or when the
current statistic is NaN; and an empty futures or margin frame yields the
neutral 50 for its factor.  Every path returns a plain rational, never an
exception. -/
theorem neutral_default :
    (∀ (D : ℤ) (p : List PriceRow) (fut : List FutRow) (v : List ValRow)
        (b : List BondRow) (m : List MarginRow),
      (p.filter (fun r => r.date ≤ D)).length < 30 →
        calculate_factors D p fut v b m = List.replicate 6 50)
    ∧ (∀ (series : List Val) (cur : Val) (inv : Bool),
        (dropna series).length < 10 → get_score series cur inv = 50)
    ∧ (∀ (series : List Val) (inv : Bool), get_score series none inv = 50)
    ∧ (∀ (D : ℤ) (cp : List PriceRow), factor4 D cp [] = 50)
    ∧ (∀ (D : ℤ), factor6 D [] = 50) := by
  refine ⟨?_, ?_, ?_, ?_, ?_⟩
  · intro D p fut v b m h
    simp only [calculate_factors, h, if_true]
  · intro series cur inv h
    cases cur with
    | none => rfl
    | some c => simp only [get_score, h, if_true]
  · intro series inv
    rfl
  · intro D cp
    rfl
  · intro D
    rfl

/-- Witness for `neutral_default` at concrete degenerate inputs. -/
theorem neutral_default_witness :
    calculate_factors 0 [⟨0, 1, 1⟩] [] [] [] [] = List.replicate 6 50
    ∧ get_score [some 1, some 2, some 3] (some 2) false = 50
    ∧ get_score (List.replicate 20 (some 1)) none true = 50 := by
  refine ⟨?_, ?_, ?_⟩
  · exact neutral_default.1 0 [⟨0, 1, 1⟩] [] [] [] [] (by decide)
  · exact neutral_default.2.1 [some 1, some 2, some 3] (some 2) false (by decide)
  · exact neutral_default.2.2.1 (List.replicate 20 (some 1)) true

/-- C3 counterexample: the scorer applied directly to the 4-observation
history of the claim returns the neutral 50, not the asserted 75, because
the 10-observation minimum-window guard fires first. -/
theorem percentile_claim_counterexample :
    get_score ([10, 20, 20, 30].map some) (some 20) false = 50
    ∧ ¬ get_score ([10, 20, 20, 30].map some) (some 20) false = 75 := by
  constructor
  · decide
  · decide

/-- C3 amended.  The percentile routine the scorer applies uses the weak
tie convention — 100 times the fraction of historical values ≤ current —
returning 75 on history `[10, 20, 20, 30]` with current 20, and 60
(40 inverted) on `[1, 2, 3, 4, 5]` with current 3; `get_score` itself
applies exactly this convention (on the trailing 750-observation window)
whenever the cleaned history has at least 10 observations, and returns the
neutral 50 on the shorter histories above. -/
theorem weak_percentile_convention :
    percentileofscore_weak [10, 20, 20, 30] 20 = 75
    ∧ percentileofscore_weak [1, 2, 3, 4, 5] 3 = 60
    ∧ 100 - percentileofscore_weak [1, 2, 3, 4, 5] 3 = 40
    ∧ (∀ (series : List Val) (c : ℚ) (inv : Bool),
        ¬ (dropna series).length < 10 →
        get_score series (some c) inv =
          if inv then 100 - percentileofscore_weak (tail_n 750 (dropna series)) c
          else percentileofscore_weak (tail_n 750 (dropna series)) c) := by
  refine ⟨by norm_num [percentileofscore_weak], by norm_num [percentileofscore_weak],
    by norm_num [percentileofscore_weak], ?_⟩
  intro series c inv h
  simp only [get_score, h, if_false]

/-- Witness for `weak_percentile_convention` on a 10-observation history:
3 of 10 values are ≤ 3, so the convention gives 30 (70 inverted). -/
theorem weak_percentile_convention_witness :
    get_score ([1, 2, 3, 4, 5, 6, 7, 8, 9, 10].map some) (some 3) false = 30
    ∧ get_score ([1, 2, 3, 4, 5, 6, 7, 8, 9, 10].map some) (some 3) true = 70 := by
  constructor
  · rw [weak_percentile_convention.2.2.2 ([1, 2, 3, 4, 5, 6, 7, 8, 9, 10].map some) 3 false
      (by decide), dropna_map_some]
    norm_num [tail_n, percentileofscore_weak]
  · rw [weak_percentile_convention.2.2.2 ([1, 2, 3, 4, 5, 6, 7, 8, 9, 10].map some) 3 true
      (by decide), dropna_map_some]
    norm_num [tail_n, percentileofscore_weak]

/-- C6 counterexample: with 751 statistic observations the scorer ranks the
current value against the trailing 750 only (`s.tail(750)`, line 102), a
proper subset of the truncated history: the oldest observation 0 is
dropped, so current value 0 scores 0, while its rank in the full truncated
history is 100/751. -/
theorem full_history_ranking_counterexample :
    get_score (((0 : ℚ) :: List.replicate 750 1).map some) (some 0) false = 0
    ∧ percentileofscore_weak (dropna (((0 : ℚ) :: List.replicate 750 1).map some)) 0
        = 100 / 751
    ∧ (100 / 751 : ℚ) ≠ 0 := by
  have hdrop : dropna (((0 : ℚ) :: List.replicate 750 1).map some)
      = (0 : ℚ) :: List.replicate 750 1 := dropna_map_some _
  have hfilt : (List.replicate 750 (1 : ℚ)).filter (fun v => v ≤ 0) = [] :=
    filter_replicate_false 750 1 _ (by norm_num)
  refine ⟨?_, ?_, by norm_num⟩
  · simp only [get_score, hdrop]
    have hlen : ((0 : ℚ) :: List.replicate 750 1).length = 751 := by
      rw [List.length_cons, List.length_replicate]
    rw [hlen]
    simp only [show ¬ (751 < 10) by omega, if_false]
    have htail : tail_n 750 ((0 : ℚ) :: List.replicate 750 1)
        = List.replicate 750 1 := by
      unfold tail_n
      rw [hlen]
      rfl
    rw [htail]
    unfold percentileofscore_weak
    rw [hfilt]
    norm_num
  · rw [hdrop]
    unfold percentileofscore_weak
    rw [List.filter_cons]
    simp only [show decide ((0 : ℚ) ≤ 0) = true by norm_num, if_true, hfilt]
    simp only [List.length_cons, List.length_replicate, List.length_nil]
    norm_num

/-- C6 amended.  The current statistic is ranked against the most recent
750 observations of the cleaned truncated statistic history; whenever that
history holds at most 750 observations this is exactly the full truncated
history, so for short histories the scorer does rank against the full
truncated history. -/
theorem ranking_uses_full_history_up_to_750 (series : List Val) (c : ℚ)
    (inv : Bool) (h : (dropna series).length ≤ 750) :
    get_score series (some c) inv =
      if (dropna series).length < 10 then 50
      else if inv then 100 - percentileofscore_weak (dropna series) c
      else percentileofscore_weak (dropna series) c := by
  have ht : tail_n 750 (dropna series) = dropna series := by
    unfold tail_n
    have h0 : (dropna series).length - 750 = 0 := by omega
    rw [h0, List.drop_zero]
  by_cases h10 : (dropna series).length < 10
  · simp only [get_score, h10, if_true]
  · simp only [get_score, h10, if_false, ht]

/-- Witness for `ranking_uses_full_history_up_to_750`: a 10-observation
history, current value 10, ranks 100 against the full history. -/
theorem ranking_uses_full_history_up_to_750_witness :
    get_score ([1, 2, 3, 4, 5, 6, 7, 8, 9, 10].map some) (some 10) false = 100 := by
  rw [ranking_uses_full_history_up_to_750 ([1, 2, 3, 4, 5, 6, 7, 8, 9, 10].map some)
    10 false (by decide), dropna_map_some]
  norm_num [percentileofscore_weak]

/-- Rounding the neutral default changes nothing. -/
theorem round2_fifty : round2 50 = 50 := by
  norm_num [round2, roundHalfEven]

/-- C7.  Single-factor failure scoping: the six sub-scores are computed
independently, so degenerate data for one factor leaves the other five
untouched — entries other than the futures factor do not depend on the
futures frame, entries other than the valuation factor do not depend on
the valuation or bond frames, entries other than the margin factor do not
depend on the margin frame, and a degenerate (empty) join or slice —
including the dropna-emptied ERP join through which the division
`1/PE - rate/100` flows — turns exactly its own factor into the neutral
50.  Every path is total: no input aborts the run. -/
theorem factor_failure_scoped (D : ℤ) (p : List PriceRow)
    (fut fut' : List FutRow) (v v' : List ValRow) (b b' : List BondRow)
    (m m' : List MarginRow) :
    (∀ j : ℕ, j ≠ 3 → (calculate_factors D p fut v b m)[j]?
        = (calculate_factors D p fut' v b m)[j]?)
    ∧ (∀ j : ℕ, j ≠ 4 → (calculate_factors D p fut v b m)[j]?
        = (calculate_factors D p fut v' b' m)[j]?)
    ∧ (∀ j : ℕ, j ≠ 5 → (calculate_factors D p fut v b m)[j]?
        = (calculate_factors D p fut v b m')[j]?)
    ∧ (innerJoin (p.filter (fun r => r.date ≤ D))
          (fut.filter (fun r => r.date ≤ D)) = [] →
        (calculate_factors D p fut v b m)[3]? = some 50)
    ∧ (((v.filter (fun r => r.date ≤ D)).flatMap (fun vr =>
          match vr.pe with
          | none => []
          | some pe =>
            ((b.filter (fun r => r.date ≤ D)).filter
                (fun br => br.date = vr.date)).filterMap
              (fun br => br.rate.map (fun rt => (pe, rt))))) = [] →
        (calculate_factors D p fut v b m)[4]? = some 50)
    ∧ (m.filter (fun r => r.date ≤ D) = [] →
        (calculate_factors D p fut v b m)[5]? = some 50) := by
  refine ⟨?_, ?_, ?_, ?_, ?_, ?_⟩
  · intro j hj
    by_cases h30 : (p.filter (fun r => r.date ≤ D)).length < 30
    · simp only [calculate_factors, h30, if_true]
    · simp only [calculate_factors, h30, if_false]
      match j, hj with
      | 0, _ => rfl
      | 1, _ => rfl
      | 2, _ => rfl
      | 3, hj => exact absurd rfl hj
      | 4, _ => rfl
      | 5, _ => rfl
      | (n + 6), _ => rfl
  · intro j hj
    by_cases h30 : (p.filter (fun r => r.date ≤ D)).length < 30
    · simp only [calculate_factors, h30, if_true]
    · simp only [calculate_factors, h30, if_false]
      match j, hj with
      | 0, _ => rfl
      | 1, _ => rfl
      | 2, _ => rfl
      | 3, _ => rfl
      | 4, hj => exact absurd rfl hj
      | 5, _ => rfl
      | (n + 6), _ => rfl
  · intro j hj
    by_cases h30 : (p.filter (fun r => r.date ≤ D)).length < 30
    · simp only [calculate_factors, h30, if_true]
    · simp only [calculate_factors, h30, if_false]
      match j, hj with
      | 0, _ => rfl
      | 1, _ => rfl
      | 2, _ => rfl
      | 3, _ => rfl
      | 4, _ => rfl
      | 5, hj => exact absurd rfl hj
      | (n + 6), _ => rfl
  · intro hmerge
    by_cases h30 : (p.filter (fun r => r.date ≤ D)).length < 30
    · simp only [calculate_factors, h30, if_true]
      rfl
    · simp only [calculate_factors, h30, if_false]
      have h4 : factor4 D (p.filter (fun r => r.date ≤ D)) fut = 50 := by
        unfold factor4
        by_cases hf : fut.isEmpty
        · simp [hf]
        · simp only [hf, if_false, hmerge, List.isEmpty_nil, if_true]
          simp
      simp only [h4, round2_fifty]
      rfl
  · intro herp
    by_cases h30 : (p.filter (fun r => r.date ≤ D)).length < 30
    · simp only [calculate_factors, h30, if_true]
      rfl
    · simp only [calculate_factors, h30, if_false]
      have h5 : factor5 D v b = 50 := by
        unfold factor5
        simp only [herp, List.isEmpty_nil, if_true]
      simp only [h5, round2_fifty]
      rfl
  · intro hm
    by_cases h30 : (p.filter (fun r => r.date ≤ D)).length < 30
    · simp only [calculate_factors, h30, if_true]
      rfl
    · simp only [calculate_factors, h30, if_false]
      have h6 : factor6 D m = 50 := by
        unfold factor6
        by_cases hmm : m.isEmpty
        · simp [hmm]
        · simp only [hmm, if_false, hm, List.isEmpty_nil, if_true]
          simp
      simp only [h6, round2_fifty]
      rfl

/-- Witness for `factor_failure_scoped` with 30 price rows and empty
futures, valuation, bond and margin frames: entry 0 is independent of the
futures and of the valuation/bond frames, and the futures, valuation and
margin factors each take their neutral 50. -/
theorem factor_failure_scoped_witness :
    ((calculate_factors 0 ((List.range 30).map (fun i => ⟨-(i : ℤ), 1, 1⟩))
        [] [] [] [])[0]?
      = (calculate_factors 0 ((List.range 30).map (fun i => ⟨-(i : ℤ), 1, 1⟩))
        [⟨0, 2⟩] [] [] [])[0]?)
    ∧ ((calculate_factors 0 ((List.range 30).map (fun i => ⟨-(i : ℤ), 1, 1⟩))
        [] [] [] [])[0]?
      = (calculate_factors 0 ((List.range 30).map (fun i => ⟨-(i : ℤ), 1, 1⟩))
        [] [⟨0, some 10⟩] [⟨0, some 3⟩] [])[0]?)
    ∧ ((calculate_factors 0 ((List.range 30).map (fun i => ⟨-(i : ℤ), 1, 1⟩))
        [] [] [] [])[3]? = some 50)
    ∧ ((calculate_factors 0 ((List.range 30).map (fun i => ⟨-(i : ℤ), 1, 1⟩))
        [] [] [] [])[4]? = some 50)
    ∧ ((calculate_factors 0 ((List.range 30).map (fun i => ⟨-(i : ℤ), 1, 1⟩))
        [] [] [] [])[5]? = some 50) := by
  refine ⟨?_, ?_, ?_, ?_, ?_⟩
  · exact (factor_failure_scoped 0 ((List.range 30).map (fun i => ⟨-(i : ℤ), 1, 1⟩))
      [] [⟨0, 2⟩] [] [] [] [] [] []).1 0 (by decide)
  · exact (factor_failure_scoped 0 ((List.range 30).map (fun i => ⟨-(i : ℤ), 1, 1⟩))
      [] [] [] [⟨0, some 10⟩] [] [⟨0, some 3⟩] [] []).2.1 0 (by decide)
  · exact (factor_failure_scoped 0 ((List.range 30).map (fun i => ⟨-(i : ℤ), 1, 1⟩))
      [] [] [] [] [] [] [] []).2.2.2.1 (by rw [List.filter_nil, innerJoin_nil])
  · exact (factor_failure_scoped 0 ((List.range 30).map (fun i => ⟨-(i : ℤ), 1, 1⟩))
      [] [] [] [] [] [] [] []).2.2.2.2.1 rfl
  · exact (factor_failure_scoped 0 ((List.range 30).map (fun i => ⟨-(i : ℤ), 1, 1⟩))
      [] [] [] [] [] [] [] []).2.2.2.2.2 (by rw [List.filter_nil])

/-- C4 counterexample: line 212 adds the bias to the raw composite and
rounds, with no clamp: a raw composite of 95 with bias 10 yields a final
prediction of 105, outside [0, 100]. -/
theorem clamping_counterexample :
    finalPredict 95 10 = 105 ∧ ¬ finalPredict 95 10 ≤ 100 := by
  constructor
  · norm_num [finalPredict, round2, roundHalfEven]
  · norm_num [finalPredict, round2, roundHalfEven]

/-- Pointwise-bounded sub-scores and nonnegative weights bound the weighted
sum between 0 and 100 times the total weight. -/
theorem zipWith_mul_sum_bounds (fs ws : List ℚ)
    (hf : ∀ x ∈ fs, 0 ≤ x ∧ x ≤ 100) (hw : ∀ w ∈ ws, 0 ≤ w) :
    0 ≤ (List.zipWith (fun f w => f * w) fs ws).sum
    ∧ (List.zipWith (fun f w => f * w) fs ws).sum ≤ 100 * ws.sum := by
  induction fs generalizing ws with
  | nil =>
    have : 0 ≤ ws.sum := List.sum_nonneg hw
    constructor
    · simp
    · simp only [List.zipWith_nil_left, List.sum_nil]
      linarith
  | cons f ft ih =>
    cases ws with
    | nil => simp
    | cons w wt =>
      have hfw := hf f (List.mem_cons_self f ft)
      have hw0 := hw w (List.mem_cons_self w wt)
      have hft : ∀ x ∈ ft, 0 ≤ x ∧ x ≤ 100 :=
        fun x hx => hf x (List.mem_cons_of_mem f hx)
      have hwt : ∀ x ∈ wt, 0 ≤ x := fun x hx => hw x (List.mem_cons_of_mem w hx)
      have hrest := ih wt hft hwt
      simp only [List.zipWith_cons_cons, List.sum_cons]
      constructor
      · have : 0 ≤ f * w := mul_nonneg hfw.1 hw0
        linarith [hrest.1]
      · have h1 : f * w ≤ 100 * w := mul_le_mul_of_nonneg_right hfw.2 hw0
        have h2 := hrest.2
        ring_nf
        nlinarith

/-- C4 amended.  The final prediction is `round(raw + bias, 2)` with no
clamp (line 212); it therefore stays within [0, 100] exactly when the
bias-shifted composite does — in particular, with a zero bias correction
(the no-closed-row default of lines 205-210), sub-scores within [0, 100]
and nonnegative weights of total at most 1 keep the final prediction
within [0, 100].  With a nonzero bias it can leave the interval, as the
counterexample shows. -/
theorem final_prediction_bounds_without_bias (fs ws : List ℚ)
    (hf : ∀ x ∈ fs, 0 ≤ x ∧ x ≤ 100) (hw : ∀ w ∈ ws, 0 ≤ w)
    (hsum : ws.sum ≤ 1) :
    0 ≤ finalPredict (todayRaw fs ws) 0
    ∧ finalPredict (todayRaw fs ws) 0 ≤ 100 := by
  have hz := zipWith_mul_sum_bounds fs ws hf hw
  have h1 : (List.zipWith (fun f w => f * w) fs ws).sum ≤ 100 := by
    have := hz.2
    nlinarith
  have hraw : 0 ≤ todayRaw fs ws ∧ todayRaw fs ws ≤ 100 :=
    round2_bounds _ 0 100 hz.1 h1 ⟨0, by norm_num⟩ ⟨100, by norm_num⟩
  have hfin : 0 ≤ round2 (todayRaw fs ws + 0) ∧ round2 (todayRaw fs ws + 0) ≤ 100 :=
    round2_bounds _ 0 100 (by linarith [hraw.1]) (by linarith [hraw.2])
      ⟨0, by norm_num⟩ ⟨100, by norm_num⟩
  exact hfin

/-- Witness for `final_prediction_bounds_without_bias` at six neutral
sub-scores and uniform weights. -/
theorem final_prediction_bounds_without_bias_witness :
    0 ≤ finalPredict (todayRaw [50, 50, 50, 50, 50, 50]
        [1/6, 1/6, 1/6, 1/6, 1/6, 1/6]) 0
    ∧ finalPredict (todayRaw [50, 50, 50, 50, 50, 50]
        [1/6, 1/6, 1/6, 1/6, 1/6, 1/6]) 0 ≤ 100 := by
  refine final_prediction_bounds_without_bias _ _ ?_ ?_ ?_
  · intro x hx
    simp only [List.mem_cons, List.not_mem_nil, or_false] at hx
    rcases hx with h | h | h | h | h | h <;> rw [h] <;> norm_num
  · intro w hw
    simp only [List.mem_cons, List.not_mem_nil, or_false] at hw
    rcases hw with h | h | h | h | h | h <;> rw [h] <;> norm_num
  · norm_num [List.sum_cons, List.sum_nil]

/-- C5.  Weight validity: whatever a successful solver run returns is
feasible by the solver's contract (box bounds [0.05, 0.4], sum 1 within
tolerance); the selection logic of lines 189-198 returns that vector only
when at least five closed rows exist and the solver succeeded, and the
uniform 1/6 vector — itself feasible, with the sum constraint exact —
otherwise.  So the weight vector used to combine sub-scores is always
feasible. -/
theorem weights_selected_feasible (eps : ℚ) (heps : 0 ≤ eps) (nFit : ℕ)
    (res : Option (Fin 6 → ℚ))
    (hres : ∀ w, res = some w → WeightsFeasible eps w) :
    WeightsFeasible eps (selectWeights nFit res) := by
  have huni : WeightsFeasible eps uniformWeights := by
    constructor
    · intro i
      constructor <;> norm_num [uniformWeights]
    · have hs : (∑ i : Fin 6, uniformWeights i) = 1 := by
        simp [uniformWeights, Fin.sum_univ_six]
      rw [hs]
      simpa using heps
  unfold selectWeights
  split
  · cases res with
    | none => exact huni
    | some w => exact hres w rfl
  · exact huni

/-- Witness for `weights_selected_feasible`: too few closed rows, no solver
result, uniform fallback. -/
theorem weights_selected_feasible_witness :
    WeightsFeasible 0 (selectWeights 3 none) :=
  weights_selected_feasible 0 le_rfl 3 none (fun _ h => Option.noConfusion h)

/-- C8 counterexample: when all three fetch attempts for the spot price
series fail, `fetch_data_with_retry` returns the empty no-column frame,
and the date-column access of line 63 raises `KeyError`, aborting the run
before any factor is scored — the provider failure is fatal rather than
degrading the affected factor to 50. -/
theorem fetch_failure_fatal_counterexample :
    mainPrelude none (some [⟨0, 1⟩]) (some [⟨0, some 10⟩]) (some [⟨0, some 2⟩])
      (some [⟨0, some 1⟩]) = Except.error () := rfl

/-- C8 amended.  Only the futures and margin frames are fetched tolerantly:
their empty fetch outcome is kept as an empty frame (guards at lines 68 and
83) and their factors then default to the neutral 50, the run continuing;
an empty fetch outcome for the price frame (likewise the valuation or bond
frame) aborts the run at the unguarded date-column access of lines 63,
75 and 78. -/
theorem guarded_fetch_failures_tolerated (p : List PriceRow) (v : List ValRow)
    (b : List BondRow) (D : ℤ) (cp : List PriceRow) :
    mainPrelude (some p) none (some v) (some b) none
        = Except.ok ⟨p, [], v, b, []⟩
    ∧ factor4 D cp [] = 50
    ∧ factor6 D [] = 50 :=
  ⟨rfl, rfl, rfl⟩

/-- The dates of the backfilled rows are exactly the workdays hit by the
loop indices. -/
theorem backfill_general (today : ℤ) (facs : ℤ → List ℚ) (act : ℤ → Option ℚ)
    (l : List ℕ) :
    ((l.filterMap (fun i : ℕ =>
        let d := today - (i : ℤ)
        if isWorkday d then
          let fs := facs d
          let p_raw := round2 (fs.sum / 6)
          let a := act d
          some (⟨d, fs, p_raw, a, a.map (fun v => round2 (v - p_raw))⟩ : LedgerRow)
        else none)).map (fun r => r.date))
      = (l.filter (fun i : ℕ => isWorkday (today - (i : ℤ)))).map
          (fun i : ℕ => today - (i : ℤ)) := by
  induction l with
  | nil => rfl
  | cons i t ih =>
    rw [List.filterMap_cons, List.filter_cons]
    by_cases h : isWorkday (today - (i : ℤ))
    · simp only [h, if_true, List.map_cons, ih]
    · simp only [h, Bool.false_eq_true, if_false, ih]

/-- The dates of `backfillRows`. -/
theorem backfillRows_map_date (today : ℤ) (facs : ℤ → List ℚ)
    (act : ℤ → Option ℚ) :
    ((backfillRows today facs act).map (fun r => r.date))
      = (((List.range 14).map (fun k => 14 - k)).filter
          (fun i : ℕ => isWorkday (today - (i : ℤ)))).map
            (fun i : ℕ => today - (i : ℤ)) :=
  backfill_general today facs act _

/-- The loop indices of lines 174-175 are exactly 1 .. 14. -/
theorem mem_loop_range (j : ℕ) :
    j ∈ (List.range 14).map (fun k => 14 - k) ↔ 1 ≤ j ∧ j ≤ 14 := by
  constructor
  · intro hj
    obtain ⟨k, hk, hkj⟩ := List.mem_map.mp hj
    have := List.mem_range.mp hk
    omega
  · intro h
    exact List.mem_map.mpr ⟨14 - j, List.mem_range.mpr (by omega), by omega⟩

/-- Date projection commutes with the drop-today filter of line 217. -/
theorem map_date_filter_ne (l : List LedgerRow) (t : ℤ) :
    ((l.filter (fun r => r.date ≠ t)).map (fun r => r.date))
      = (l.map (fun r => r.date)).filter (fun x => x ≠ t) := by
  induction l with
  | nil => rfl
  | cons r rs ih =>
    simp only [ne_eq, decide_not] at ih
    by_cases h : r.date = t
    · simp [List.filter_cons, h, ih]
    · simp [List.filter_cons, h, ih]

/-- Membership in the backfilled dates is exactly the trailing-window
workday condition. -/
theorem mem_backfill_dates (today : ℤ) (facs : ℤ → List ℚ)
    (act : ℤ → Option ℚ) (d : ℤ) :
    d ∈ (backfillRows today facs act).map (fun r => r.date) ↔
      (today - 14 ≤ d ∧ d < today ∧ isWorkday d = true) := by
  rw [backfillRows_map_date]
  constructor
  · intro hd
    obtain ⟨i, hif, hdi⟩ := List.mem_map.mp hd
    obtain ⟨hiL, hw⟩ := List.mem_filter.mp hif
    have hb := (mem_loop_range i).mp hiL
    subst hdi
    exact ⟨by omega, by omega, hw⟩
  · rintro ⟨h1, h2, h3⟩
    refine List.mem_map.mpr ⟨(today - d).toNat,
      List.mem_filter.mpr ⟨(mem_loop_range _).mpr ⟨by omega, by omega⟩, ?_⟩, by omega⟩
    have he : today - (((today - d).toNat : ℕ) : ℤ) = d := by omega
    rw [he]
    exact h3

/-- C9.  Ledger row replacement: the persisted ledger holds at most one row
per date — the backfill loop visits each workday once, any row already
carrying today's date is dropped before today's row is appended
(line 217), and sorting only permutes rows — and the row carrying today's
date is exactly the freshly appended one with the latest computed
values. -/
theorem ledger_unique_dates (today : ℤ) (facs : ℤ → List ℚ)
    (act : ℤ → Option ℚ) (ws : List ℚ) :
    ((finalLedger today facs act ws).map (fun r => r.date)).Nodup
    ∧ (∀ r ∈ finalLedger today facs act ws, r.date = today →
        r = todayRow today (facs today) ws) := by
  have hperm : (finalLedger today facs act ws).Perm
      ((backfillRows today facs act).filter (fun r => r.date ≠ today)
        ++ [todayRow today (facs today) ws]) := by
    unfold finalLedger
    exact List.mergeSort_perm _ _
  constructor
  · rw [(hperm.map (fun r => r.date)).nodup_iff]
    rw [List.map_append, List.nodup_append]
    refine ⟨?_, by simp, ?_⟩
    · apply List.Nodup.sublist (List.Sublist.map _ (List.filter_sublist _))
      rw [backfillRows_map_date]
      apply List.Nodup.map
      · intro a b hab
        dsimp only at hab
        omega
      · exact List.Nodup.filter _ (by decide)
    · intro x hx
      rw [map_date_filter_ne] at hx
      obtain ⟨hxm, hxne⟩ := List.mem_filter.mp hx
      simp only [List.map_cons, List.map_nil, List.mem_singleton]
      intro hxt
      rw [hxt] at hxne
      simp [todayRow] at hxne
  · intro r hr hrd
    have hmem := hperm.mem_iff.mp hr
    rw [List.mem_append] at hmem
    rcases hmem with h | h
    · obtain ⟨_, hne⟩ := List.mem_filter.mp h
      rw [hrd] at hne
      simp at hne
    · simpa using h

/-- Witness for `ledger_unique_dates` at a concrete run: the unique-dates
invariant holds, and the theorem identifies the member carrying today's
date with the appended row. -/
theorem ledger_unique_dates_witness :
    ((finalLedger 0 (fun _ => List.replicate 6 50) (fun _ => none)
        (List.replicate 6 (1/6))).map (fun r => r.date)).Nodup
    ∧ (⟨0, List.replicate 6 50,
          todayRaw (List.replicate 6 50) (List.replicate 6 (1/6)), none, none⟩
          : LedgerRow)
        = todayRow 0 (List.replicate 6 50) (List.replicate 6 (1/6)) := by
  refine ⟨(ledger_unique_dates 0 (fun _ => List.replicate 6 50) (fun _ => none)
    (List.replicate 6 (1/6))).1, ?_⟩
  have hmem : (⟨0, List.replicate 6 50,
      todayRaw (List.replicate 6 50) (List.replicate 6 (1/6)), none, none⟩
        : LedgerRow)
      ∈ finalLedger 0 (fun _ => List.replicate 6 50) (fun _ => none)
          (List.replicate 6 (1/6)) := by
    unfold finalLedger
    exact (List.mergeSort_perm _ _).mem_iff.mpr
      (List.mem_append_right _ (List.mem_singleton_self _))
  exact (ledger_unique_dates 0 (fun _ => List.replicate 6 50) (fun _ => none)
    (List.replicate 6 (1/6))).2 _ hmem rfl

/-- C10.  The ledger is rebuilt from scratch on every run: the prior file
content is deleted (lines 53-56) and never read, so the produced ledger is
independent of it, and the dates it holds are exactly the workdays of the
trailing 14 calendar days plus today's date — older persisted rows are
discarded, not reconciled. -/
theorem ledger_rebuilt_from_scratch (prior prior' : Option (List LedgerRow))
    (today : ℤ) (facs : ℤ → List ℚ) (act : ℤ → Option ℚ) (ws : List ℚ) :
    runLedger prior today facs act ws = runLedger prior' today facs act ws
    ∧ (∀ d : ℤ, d ∈ (runLedger prior today facs act ws).map (fun r => r.date)
        ↔ d = today ∨ (today - 14 ≤ d ∧ d < today ∧ isWorkday d = true)) := by
  refine ⟨rfl, ?_⟩
  intro d
  have hperm : (runLedger prior today facs act ws).Perm
      ((backfillRows today facs act).filter (fun r => r.date ≠ today)
        ++ [todayRow today (facs today) ws]) := by
    unfold runLedger finalLedger
    exact List.mergeSort_perm _ _
  rw [(hperm.map (fun r => r.date)).mem_iff]
  rw [List.map_append, List.mem_append, map_date_filter_ne]
  constructor
  · rintro (h | h)
    · obtain ⟨hm, _⟩ := List.mem_filter.mp h
      exact Or.inr ((mem_backfill_dates today facs act d).mp hm)
    · simp only [List.map_cons, List.map_nil, List.mem_singleton] at h
      exact Or.inl h
  · rintro (rfl | hbd)
    · right
      simp [todayRow]
    · left
      refine List.mem_filter.mpr ⟨(mem_backfill_dates today facs act d).mpr hbd, ?_⟩
      have : d ≠ today := by omega
      simpa using this
